import Mathlib

/-!
Verification of the orchestration core of the open-manus repository: the
outer plan-act-observe loop (`src/agent/agent.ts`), the memory store
(`src/agent/memory-store.ts`) and the browser atomic-action inner loop
(`src/tools/browser.ts`, first variant).  Pure logic is translated
directly; the LLM planning oracle and the concrete tool backends are
modelled as function parameters (scripted oracles), timestamps as explicit
numeric arguments, and JavaScript `Map`s as insertion-ordered association
lists.  Ghost fields (call counters, event traces) instrument the state to
let theorems speak about numbers of planning calls and dispatches; they do
not influence any computed value.
-/

namespace OpenManus

/-! ### Memory store (`src/agent/memory-store.ts`) -/

/-- The opaque `data: any` payload of a `DataEntry`.  `str s` is a value
that `JSON.stringify` renders as the text `s`; `circular` models a value
with a circular reference, on which `JSON.stringify` throws. -/
inductive Payload
  | str (s : String)
  | circular
deriving DecidableEq, Repr

/-- `JSON.stringify` on a payload: yields the rendered text, or throws on
circular structures. -/
def jsonStringify : Payload → Except String String
  | .str s => .ok s
  | .circular => .error "Converting circular structure to JSON"

/-- `Map.get`, on the association-list model of a JavaScript `Map`. -/
def mapGet {α β : Type} [DecidableEq α] : List (α × β) → α → Option β
  | [], _ => none
  | p :: m, k => if p.1 = k then some p.2 else mapGet m k

/-- `Map.has`. -/
def mapContains {α β : Type} [DecidableEq α] : List (α × β) → α → Bool
  | [], _ => false
  | p :: m, k => if p.1 = k then true else mapContains m k

/-- `Map.set`: updates the value in place when the key exists (iteration
order of a JavaScript `Map` keeps the original insertion position),
otherwise appends the new binding at the end. -/
def mapSet {α β : Type} [DecidableEq α] (m : List (α × β)) (k : α) (v : β) : List (α × β) :=
  if mapContains m k then m.map (fun p => if p.1 = k then (k, v) else p)
  else m ++ [(k, v)]

/-- `Map.delete`. -/
def mapDelete {α β : Type} [DecidableEq α] (m : List (α × β)) (k : α) : List (α × β) :=
  m.filter (fun p => decide (p.1 ≠ k))

/-- Keys of the association-list map, in iteration order. -/
def mapKeys {α β : Type} (m : List (α × β)) : List α := m.map (·.1)

/-- `DataEntry` of `memory-store.ts`: an immutable record of one completed
capability invocation.  `timestamp` is the `Date.now()` value, passed in
explicitly by the caller of `addResult`. -/
structure DataEntry where
  stepId : Nat
  type : String
  data : Payload
  timestamp : Nat
deriving DecidableEq, Repr

/-- The `MemoryStore` state: a chronological log plus two indices. -/
structure MemoryStore where
  dataByType : List (String × List DataEntry)
  dataByStepId : List (Nat × List DataEntry)
  allData : List DataEntry
deriving DecidableEq, Repr

/-- A freshly constructed `MemoryStore`. -/
def emptyStore : MemoryStore := ⟨[], [], []⟩

/-- `MemoryStore.addResult(stepId, type, data)`: builds the entry, pushes
it onto both indices (creating the bucket when absent) and onto the
chronological list.  `ts` is the `Date.now()` timestamp. -/
def MemoryStore.addResult (store : MemoryStore) (stepId : Nat) (type : String)
    (data : Payload) (ts : Nat) : MemoryStore :=
  let entry : DataEntry := ⟨stepId, type, data, ts⟩
  { dataByType := mapSet store.dataByType type
      ((mapGet store.dataByType type).getD [] ++ [entry]),
    dataByStepId := mapSet store.dataByStepId stepId
      ((mapGet store.dataByStepId stepId).getD [] ++ [entry]),
    allData := store.allData ++ [entry] }

/-- `MemoryStore.getResultsByType(type)`: the bucket, or `[]` when absent. -/
def MemoryStore.getResultsByType (store : MemoryStore) (type : String) : List DataEntry :=
  (mapGet store.dataByType type).getD []

/-- `MemoryStore.getResultsByStepId(stepId)`: the bucket, or `[]` when absent. -/
def MemoryStore.getResultsByStepId (store : MemoryStore) (stepId : Nat) : List DataEntry :=
  (mapGet store.dataByStepId stepId).getD []

/-- `MemoryStore.clearStepData(stepId)`: deletes the step-index key,
filters the entries of every type bucket (deleting buckets that become
empty, updating the others in place), and filters the chronological log. -/
def MemoryStore.clearStepData (store : MemoryStore) (stepId : Nat) : MemoryStore :=
  { dataByStepId := mapDelete store.dataByStepId stepId,
    dataByType :=
      (store.dataByType.map
        (fun p => (p.1, p.2.filter (fun e => decide (e.stepId ≠ stepId))))).filter
        (fun p => decide (p.2 ≠ [])),
    allData := store.allData.filter (fun e => decide (e.stepId ≠ stepId)) }

/-- Renders the body of `getFormattedContext`: one block per entry, in
chronological order; the error of the first non-serializable payload
propagates, exactly as the exception of `JSON.stringify` would. -/
def renderEntries : List DataEntry → Except String String
  | [] => .ok ""
  | e :: rest =>
    match jsonStringify e.data with
    | .error err => .error err
    | .ok s =>
      match renderEntries rest with
      | .error err => .error err
      | .ok r =>
        .ok ("Step " ++ toString e.stepId ++ ": " ++ e.type ++ " operation\n"
          ++ "Results:\n" ++ s ++ "\n\n" ++ r)

/-- `MemoryStore.getFormattedContext()`: the first-step sentinel on an
empty log, otherwise the header followed by every entry rendered with
`JSON.stringify`. -/
def MemoryStore.getFormattedContext (store : MemoryStore) : Except String String :=
  if store.allData = [] then
    .ok "This is the first step, so there are no previous results."
  else
    match renderEntries store.allData with
    | .error err => .error err
    | .ok r => .ok ("Progress so far:\n\n" ++ r)

/-- One operation of a memory-store usage sequence. -/
inductive MemOp
  | add (stepId : Nat) (type : String) (data : Payload) (ts : Nat)
  | clear (stepId : Nat)
deriving DecidableEq, Repr

/-- Applies one operation. -/
def applyOp (store : MemoryStore) : MemOp → MemoryStore
  | .add sid t d ts => store.addResult sid t d ts
  | .clear sid => store.clearStepData sid

/-- Applies a usage sequence left to right. -/
def applyOps (store : MemoryStore) : List MemOp → MemoryStore
  | [] => store
  | op :: ops => applyOps (applyOp store op) ops

/-- Modelled from the spec: the `DataEntries` that were added with the
given `stepId` and not since removed by `clearStepData`, in insertion
order, starting from the already-present entries `acc`. -/
def specEntriesForStep (s : Nat) : List MemOp → List DataEntry → List DataEntry
  | [], acc => acc
  | .add sid t d ts :: ops, acc =>
    specEntriesForStep s ops (if sid = s then acc ++ [⟨sid, t, d, ts⟩] else acc)
  | .clear sid :: ops, acc =>
    specEntriesForStep s ops (if sid = s then [] else acc)

/-- Well-formedness of the two indices: each `Map` binds a key at most
once (true of a JavaScript `Map` by construction). -/
def MemoryStore.WF (store : MemoryStore) : Prop :=
  (mapKeys store.dataByType).Nodup ∧ (mapKeys store.dataByStepId).Nodup

/-! ### Outer loop (`src/agent/agent.ts`)

`Agent.run` drives: planning (`determineNextStep`, whose LLM call is
modelled as a scripted oracle indexed by the number of planning calls so
far), dispatch (`executeStep`, whose single `generateText` tool round is
modelled as a scripted dispatcher indexed by the number of dispatches so
far), and the `researchData` record.  The `while (currentStep < maxSteps)`
guard is realised by the structurally decreasing argument
`fuel = maxSteps - currentStep`, which is in exact correspondence with the
guard because `currentStep` starts at `0` and increases by exactly one per
iteration.  The exit label names the distinct exit paths of the source
loop: the guard failing, the completion break, and the catch-break fed by
a throwing planning call or a throwing dispatch. -/

/-- `Step.status` of `src/types.ts`. -/
inductive StepStatus
  | pending
  | running
  | completed
  | failed
deriving DecidableEq, Repr

/-- A `Step` as handled by the agent (`params` modelled as an opaque
key-value list). -/
structure OStep where
  id : Nat
  description : String
  status : StepStatus
  params : List (String × String)
  error : Option String := none
deriving DecidableEq, Repr

/-- The `step` object inside the structured planner response: the zod
schema marks the whole object optional; `description` may be the empty
string (which the code treats as missing via `||`). -/
structure RawStep where
  id : Nat
  description : String
  params : List (String × String)
deriving DecidableEq, Repr

/-- The structured object returned by the planning LLM call in
`determineNextStep`. -/
structure PlannerResponse where
  isComplete : Bool
  reason : Option String
  step : Option RawStep
deriving DecidableEq, Repr

/-- The value `determineNextStep` returns to `run`. -/
structure PlanDecision where
  isComplete : Bool
  reason : Option String
  step : OStep
deriving DecidableEq, Repr

/-- The pure tail of `Agent.determineNextStep`: mapping the oracle
response to the decision.  On `isComplete` the placeholder completed step
is returned; otherwise the step is built with the current step number as
id, the error-marker description when the response omits one, and the
response params (or an empty map). -/
def determineNextStep (currentStep : Nat) (resp : PlannerResponse) : PlanDecision :=
  if resp.isComplete then
    { isComplete := true, reason := resp.reason,
      step := { id := currentStep, description := "Task completed",
                status := .completed, params := [] } }
  else
    { isComplete := false, reason := resp.reason,
      step := { id := currentStep,
                description :=
                  match resp.step with
                  | none => "Error: No step description provided"
                  | some s =>
                    if s.description = "" then "Error: No step description provided"
                    else s.description,
                status := .pending,
                params := (resp.step.map (·.params)).getD [] } }

/-- The registered capability names (`aiTools` of `executeStep`). -/
inductive ToolName
  | search
  | browser
  | fileOperations
  | javascriptExecutor
deriving DecidableEq, Repr

/-- The `type` string recorded in `researchData` for each tool call. -/
def researchType : ToolName → String
  | .search => "search"
  | .browser => "browser"
  | .fileOperations => "fileOperation"
  | .javascriptExecutor => "javascriptExecution"

/-- One element of `this.researchData` (`data` payload kept opaque). -/
structure ResearchEntry where
  type : String
  stepId : Nat
  data : String
deriving DecidableEq, Repr

/-- The pure tail of `Agent.executeStep` for one dispatch outcome: on a
normal return the tool-call results are recorded and the step completes;
on a throw the step is marked failed with the captured error message,
which is then rethrown (third component).  The step passes through
`running` in between; only its final status is observable. -/
def executeStep (step : OStep) (outcome : Except String (List (ToolName × String))) :
    OStep × List ResearchEntry × Option String :=
  match outcome with
  | .ok calls =>
    ({ step with status := .completed },
     calls.map (fun c => { type := researchType c.1, stepId := step.id, data := c.2 }),
     none)
  | .error e => ({ step with status := .failed, error := some e }, [], some e)

/-- The agent loop state.  `currentStep` and `researchData` are the
mutable fields of `Agent`; `planCalls`, `dispatchCount`, `tops` and
`stepsLog` are ghost instrumentation: the number of planning-oracle
calls, the number of dispatches, the value of `currentStep` at each
evaluation of the loop guard, and the executed steps with their final
status. -/
structure AgentSt where
  currentStep : Nat
  researchData : List ResearchEntry
  planCalls : Nat
  dispatchCount : Nat
  tops : List Nat
  stepsLog : List OStep
deriving DecidableEq, Repr

/-- The state of a freshly constructed `Agent`. -/
def initialAgentSt : AgentSt :=
  { currentStep := 0, researchData := [], planCalls := 0, dispatchCount := 0,
    tops := [], stepsLog := [] }

/-- The way `Agent.run` terminated, naming the four distinct exit paths
of the loop body. -/
inductive RunExit
  | completed (reason : Option String)
  | budgetExhausted
  | plannerError (e : String)
  | handlerError (e : String)
deriving DecidableEq, Repr

/-- The loop of `Agent.run`.  `fuel = maxSteps - currentStep` realises
the `while (currentStep < maxSteps)` guard; `fuel = 0` is exactly the
guard failing.  Each iteration increments `currentStep`, asks the
planning oracle (a throw ends the run), checks completion, and otherwise
dispatches (a throw marks the step failed and ends the run). -/
def runAux (oracle : Nat → Except String PlannerResponse)
    (dispatch : Nat → Except String (List (ToolName × String))) :
    Nat → AgentSt → AgentSt × RunExit
  | 0, st => ({ st with tops := st.tops ++ [st.currentStep] }, .budgetExhausted)
  | fuel + 1, st =>
    let st0 : AgentSt := { st with tops := st.tops ++ [st.currentStep] }
    let currentStep := st0.currentStep + 1
    match oracle st0.planCalls with
    | .error e =>
      ({ st0 with
          currentStep := currentStep,
          planCalls := st0.planCalls + 1 }, .plannerError e)
    | .ok resp =>
      let st1 : AgentSt :=
        { st0 with
          currentStep := currentStep,
          planCalls := st0.planCalls + 1 }
      let d := determineNextStep currentStep resp
      if d.isComplete then (st1, .completed d.reason)
      else
        let out := executeStep d.step (dispatch st1.dispatchCount)
        let st2 : AgentSt :=
          { st1 with
            researchData := st1.researchData ++ out.2.1,
            dispatchCount := st1.dispatchCount + 1,
            stepsLog := st1.stepsLog ++ [out.1] }
        match out.2.2 with
        | some e => (st2, .handlerError e)
        | none => runAux oracle dispatch fuel st2

/-- `Agent.run()` with budget `maxSteps`, a scripted planning oracle and
a scripted dispatcher. -/
def Agent.run (maxSteps : Nat) (oracle : Nat → Except String PlannerResponse)
    (dispatch : Nat → Except String (List (ToolName × String))) : AgentSt × RunExit :=
  runAux oracle dispatch maxSteps initialAgentSt

/-! ### Browser atomic-action inner loop (`src/tools/browser.ts`, first
variant)

`BrowserTool.executeGoal` is modelled with: a scripted planning oracle
(`sendPrompt`, indexed by the number of planning calls so far), an atomic
executor `exec` standing for `runAtomicStep` (returning the extraction
value or throwing), and an explicit start URL (the claims under study all
concern dispatches with a provided URL).  The `while (true)` loop with
its `if (stepCount > MAX_STEPS) break` guard is realised by the
structurally decreasing `fuel = MAX_STEPS - stepCount`, in exact
correspondence with the guard because `stepCount` starts at `1` and
increases by exactly one per iteration.  The final `summary` field (an
LLM-generated digest) carries no control logic and is omitted. -/

/-- The closed enumeration of atomic browser methods. -/
inductive AtomicMethod
  | GOTO
  | ACT
  | EXTRACT
  | OBSERVE
  | CLOSE
  | SCREENSHOT
  | WAIT
  | NAVBACK
  | HTML
deriving DecidableEq, Repr

/-- The string the template literal renders for a method. -/
def methodName : AtomicMethod → String
  | .GOTO => "GOTO"
  | .ACT => "ACT"
  | .EXTRACT => "EXTRACT"
  | .OBSERVE => "OBSERVE"
  | .CLOSE => "CLOSE"
  | .SCREENSHOT => "SCREENSHOT"
  | .WAIT => "WAIT"
  | .NAVBACK => "NAVBACK"
  | .HTML => "HTML"

/-- `tool.toLowerCase()`. -/
def methodLower : AtomicMethod → String
  | .GOTO => "goto"
  | .ACT => "act"
  | .EXTRACT => "extract"
  | .OBSERVE => "observe"
  | .CLOSE => "close"
  | .SCREENSHOT => "screenshot"
  | .WAIT => "wait"
  | .NAVBACK => "navback"
  | .HTML => "html"

/-- A `Step` of the inner loop: the structured object the planning call
returns. -/
structure BStep where
  text : String
  reasoning : String
  tool : AtomicMethod
  instruction : String
deriving DecidableEq, Repr

/-- An `ExtractedData` record (`metadata.timestamp`, a wall-clock string,
is omitted). -/
structure ExtractedData where
  type : String
  content : String
  metaTool : String
  metaInstruction : String
deriving DecidableEq, Repr

/-- `processExtractedData`: extraction payloads arrive here already
stringified (the executor returns text), so the serialization fallback at
the top of the source function is the identity.  Every call site passes
`EXTRACT`, `OBSERVE` or `HTML`, selecting the first branch; the
JSON-sniffing fallback below it is unreachable and collapsed to the
final `raw` default. -/
def processExtractedData (data : String) (tool : AtomicMethod) (instruction : String) :
    ExtractedData :=
  if tool = .HTML ∨ tool = .EXTRACT ∨ tool = .OBSERVE then
    { type := methodLower tool, content := data,
      metaTool := methodName tool, metaInstruction := instruction }
  else
    { type := "raw", content := data,
      metaTool := methodName tool, metaInstruction := instruction }

/-- Ghost trace events of one browser dispatch: a planning call, an
executed atomic action, or the per-iteration context screenshot. -/
inductive TraceEv
  | plan (s : BStep)
  | act (m : AtomicMethod) (instruction : String)
  | shot
deriving DecidableEq, Repr

/-- The inner-loop state.  `stepCount`, `similarStepsCount`, `lastAction`,
`previousSteps` and `results` are the locals of `executeGoal`;
`planCalls` and `trace` are ghost instrumentation. -/
structure LoopSt where
  stepCount : Nat
  similarStepsCount : Nat
  lastAction : String
  previousSteps : List BStep
  results : List ExtractedData
  planCalls : Nat
  trace : List TraceEv
deriving DecidableEq, Repr

/-- `MAX_SIMILAR_STEPS` of `executeGoal`. -/
def MAX_SIMILAR_STEPS : Nat := 3

/-- How the inner loop ended: the step-budget break, the loop-detection
break, or the `CLOSE` break (`goalCompleted = true`). -/
inductive InnerExit
  | budget
  | loopDetected
  | closed
deriving DecidableEq, Repr

/-- `goalCompleted` at the end of the loop. -/
def goalCompletedFlag : InnerExit → Bool
  | .closed => true
  | _ => false

/-- The first, always-navigation step built for a provided start URL. -/
def firstStep (startUrl : String) : BStep :=
  { text := "Navigating to " ++ startUrl,
    reasoning := "Using the URL provided in the request",
    tool := .GOTO, instruction := startUrl }

/-- The loop state right after the initial `GOTO` (the only entry in the
ghost trace so far is that executed navigation). -/
def initialLoopSt (startUrl : String) : LoopSt :=
  { stepCount := 1, similarStepsCount := 0, lastAction := "",
    previousSteps := [firstStep startUrl], results := [], planCalls := 0,
    trace := [.act .GOTO startUrl] }

/-- The `while (true)` loop of `executeGoal`.  `fuel = MAX_STEPS -
stepCount` realises the `if (stepCount > MAX_STEPS) break` guard (the
guard fires exactly when the incremented count exceeds the budget).  Each
surviving iteration takes the context screenshot, asks the planning
oracle, runs loop detection (breaking before executing when the repeat
counter reaches `MAX_SIMILAR_STEPS`), executes the chosen action (a throw
propagates), collects typed results for `EXTRACT`, `OBSERVE` and `HTML`,
appends the step, and breaks on `CLOSE`. -/
def innerLoopAux (oracle : Nat → BStep) (exec : AtomicMethod → String → Except String String) :
    Nat → LoopSt → Except String (InnerExit × LoopSt)
  | 0, st => .ok (.budget, { st with stepCount := st.stepCount + 1 })
  | fuel + 1, st =>
    match exec .SCREENSHOT "" with
    | .error e => .error e
    | .ok _ =>
      let result := oracle st.planCalls
      let currentAction := methodName result.tool ++ ":" ++ result.instruction
      let similar := if currentAction = st.lastAction then st.similarStepsCount + 1 else 0
      let st1 : LoopSt :=
        { st with
          stepCount := st.stepCount + 1,
          planCalls := st.planCalls + 1,
          similarStepsCount := similar,
          lastAction := if currentAction = st.lastAction then st.lastAction else currentAction,
          trace := st.trace ++ [.shot, .plan result] }
      if MAX_SIMILAR_STEPS ≤ similar then .ok (.loopDetected, st1)
      else
        match exec result.tool result.instruction with
        | .error e => .error e
        | .ok extraction =>
          let st2 : LoopSt :=
            { st1 with
              trace := st1.trace ++ [.act result.tool result.instruction],
              results :=
                if result.tool = .EXTRACT ∨ result.tool = .OBSERVE ∨ result.tool = .HTML then
                  st1.results ++ [processExtractedData extraction result.tool result.instruction]
                else st1.results,
              previousSteps := st1.previousSteps ++ [result] }
          if result.tool = .CLOSE then .ok (.closed, st2)
          else innerLoopAux oracle exec fuel st2

/-- `executeGoal` up to (and excluding) result assembly: the immediate
`GOTO` to the provided start URL (no planning call), then the loop.  The
returned pair is the exit kind and the final loop state. -/
def executeGoalSt (maxSteps : Nat) (oracle : Nat → BStep)
    (exec : AtomicMethod → String → Except String String) (startUrl : String) :
    Except String (InnerExit × LoopSt) :=
  match exec .GOTO startUrl with
  | .error e => .error e
  | .ok _ => innerLoopAux oracle exec (maxSteps - 1) (initialLoopSt startUrl)

/-- The termination `message` of a `BrowserResult`, verbatim from the
source conditional. -/
def browserMessage (goalCompleted : Bool) (stepCount similarStepsCount maxSteps : Nat) :
    String :=
  if goalCompleted then "Task completed successfully"
  else
    "Task terminated after " ++ toString stepCount ++ " steps" ++
      (if MAX_SIMILAR_STEPS ≤ similarStepsCount then " (detected repetitive actions)"
       else if maxSteps ≤ stepCount then " (reached maximum steps)"
       else "")

/-- The aggregate returned to the outer loop (`summary` omitted, see
above). -/
structure BrowserResult where
  message : String
  steps : List BStep
  totalSteps : Nat
  completed : Bool
  results : List ExtractedData
deriving DecidableEq, Repr

/-- Assembles the `BrowserResult` from the exit kind and final state. -/
def mkBrowserResult (maxSteps : Nat) (ek : InnerExit) (st : LoopSt) : BrowserResult :=
  { message := browserMessage (goalCompletedFlag ek) st.stepCount st.similarStepsCount maxSteps,
    steps := st.previousSteps, totalSteps := st.stepCount,
    completed := goalCompletedFlag ek, results := st.results }

/-- `BrowserTool.executeGoal(goal, providedUrl)`: a thrown error is
rewrapped; a normal exit assembles the result. -/
def BrowserTool.executeGoal (maxSteps : Nat) (oracle : Nat → BStep)
    (exec : AtomicMethod → String → Except String String) (startUrl : String) :
    Except String BrowserResult :=
  match executeGoalSt maxSteps oracle exec startUrl with
  | .error e => .error ("Browser operation failed: " ++ e)
  | .ok (ek, st) => .ok (mkBrowserResult maxSteps ek st)

/-- The budget-exhaustion form of the termination message. -/
def budgetMessage (n : Nat) : String :=
  "Task terminated after " ++ toString n ++ " steps" ++ " (reached maximum steps)"

/-- The loop-detection form of the termination message. -/
def loopMessage (n : Nat) : String :=
  "Task terminated after " ++ toString n ++ " steps" ++ " (detected repetitive actions)"

/-- Number of executed atomic actions in a ghost trace. -/
def actCount (tr : List TraceEv) : Nat :=
  (tr.filter (fun ev => match ev with | .act _ _ => true | _ => false)).length

/-- An atomic executor that always succeeds with an empty extraction. -/
def okExec : AtomicMethod → String → Except String String := fun _ _ => .ok ""

/-- A sample `ACT` planning decision. -/
def actStep : BStep := ⟨"", "", .ACT, "x"⟩

/-- A sample `CLOSE` planning decision. -/
def closeStep : BStep := ⟨"", "", .CLOSE, ""⟩

/-- A sample `EXTRACT` planning decision asking for the title. -/
def extractTitleStep : BStep := ⟨"", "", .EXTRACT, "title"⟩

/-- The result of a dispatch whose oracle constantly answers `CLOSE`. -/
def constCloseResult : BrowserResult :=
  { message := "Task completed successfully",
    steps := [firstStep "u", closeStep], totalSteps := 2,
    completed := true, results := [] }

/-- Final loop state of a dispatch with budget 1 (immediate budget break). -/
def c8State : LoopSt := { initialLoopSt "u" with stepCount := 2 }

/-- Final loop state of a budget-2 dispatch whose oracle constantly
answers `ACT`. -/
def c10State : LoopSt :=
  { stepCount := 3, similarStepsCount := 0, lastAction := "ACT:x",
    previousSteps := [firstStep "u", actStep], results := [], planCalls := 1,
    trace := [.act .GOTO "u", .shot, .plan actStep, .act .ACT "x"] }

/-! ### Theorems -/

/-- `mapContains` decides key membership. -/
theorem mapContains_false_get {α β : Type} [DecidableEq α] {m : List (α × β)} {k : α}
    (h : mapContains m k = false) : mapGet m k = none := by
  induction m with
  | nil => rfl
  | cons p m ih =>
    simp only [mapContains] at h
    simp only [mapGet]
    by_cases hp : p.1 = k
    · simp [hp] at h
    · simpa [hp] using ih (by simpa [hp] using h)

/-- Reading the replaced key after the update-in-place branch of `mapSet`. -/
theorem mapGet_replace_self {α β : Type} [DecidableEq α] (m : List (α × β)) (k : α) (v : β)
    (hc : mapContains m k = true) :
    mapGet (m.map (fun p => if p.1 = k then (k, v) else p)) k = some v := by
  induction m with
  | nil => simp [mapContains] at hc
  | cons p m ih =>
    by_cases hp : p.1 = k
    · simp [mapGet, hp]
    · simp only [mapContains, hp, if_false] at hc
      simpa [mapGet, hp] using ih hc

/-- Reading another key after the update-in-place branch of `mapSet`. -/
theorem mapGet_replace_ne {α β : Type} [DecidableEq α] (m : List (α × β)) (k k' : α) (v : β)
    (h : k' ≠ k) :
    mapGet (m.map (fun p => if p.1 = k then (k, v) else p)) k' = mapGet m k' := by
  induction m with
  | nil => rfl
  | cons p m ih =>
    by_cases hp : p.1 = k
    · simpa [mapGet, hp, Ne.symm h] using ih
    · by_cases hp' : p.1 = k'
      · simp [mapGet, hp, hp', h]
      · simpa [mapGet, hp, hp'] using ih

/-- Reading the appended key after the append branch of `mapSet`. -/
theorem mapGet_append_self {α β : Type} [DecidableEq α] (m : List (α × β)) (k : α) (v : β)
    (hc : mapContains m k = false) :
    mapGet (m ++ [(k, v)]) k = some v := by
  induction m with
  | nil => simp [mapGet]
  | cons p m ih =>
    simp only [mapContains] at hc
    by_cases hp : p.1 = k
    · simp [hp] at hc
    · simp only [hp, if_false] at hc
      simpa [mapGet, hp] using ih hc

/-- Reading another key after the append branch of `mapSet`. -/
theorem mapGet_append_ne {α β : Type} [DecidableEq α] (m : List (α × β)) (k k' : α) (v : β)
    (h : k' ≠ k) :
    mapGet (m ++ [(k, v)]) k' = mapGet m k' := by
  induction m with
  | nil => simp [mapGet, Ne.symm h]
  | cons p m ih =>
    by_cases hp' : p.1 = k'
    · simp [mapGet, hp']
    · simpa [mapGet, hp'] using ih

/-- Reading the key just written by `mapSet`. -/
theorem mapGet_mapSet_self {α β : Type} [DecidableEq α] (m : List (α × β)) (k : α) (v : β) :
    mapGet (mapSet m k v) k = some v := by
  rw [mapSet]
  by_cases hc : mapContains m k
  · simpa [hc] using mapGet_replace_self m k v hc
  · simpa [hc] using mapGet_append_self m k v (by simpa using hc)

/-- Reading another key after `mapSet`. -/
theorem mapGet_mapSet_ne {α β : Type} [DecidableEq α] (m : List (α × β)) (k k' : α) (v : β)
    (h : k' ≠ k) : mapGet (mapSet m k v) k' = mapGet m k' := by
  rw [mapSet]
  by_cases hc : mapContains m k
  · simpa [hc] using mapGet_replace_ne m k k' v h
  · simpa [hc] using mapGet_append_ne m k k' v h

/-- Reading after `mapDelete`. -/
theorem mapGet_mapDelete {α β : Type} [DecidableEq α] (m : List (α × β)) (k k' : α) :
    mapGet (mapDelete m k) k' = if k' = k then none else mapGet m k' := by
  induction m with
  | nil => simp [mapGet, mapDelete]
  | cons p m ih =>
    simp only [mapDelete, List.filter_cons] at ih ⊢
    by_cases hp : p.1 = k
    · have hd : (decide (p.1 ≠ k)) = false := by simp [hp]
      rw [hd]
      simp only [Bool.false_eq_true, if_false, ih]
      by_cases hk : k' = k
      · simp [hk]
      · have hpk : ¬(p.1 = k') := by
          rw [hp]; exact fun hh => hk hh.symm
        simp [hk, mapGet, hpk]
    · have hd : (decide (p.1 ≠ k)) = true := by simp [hp]
      rw [hd]
      simp only [if_true]
      by_cases hp' : p.1 = k'
      · have hk : ¬(k' = k) := fun hh => hp (by rw [hp', hh])
        simp [mapGet, hp', hk]
      · simp only [mapGet, hp', if_false, ih]

/-- Effect of `addResult` on `getResultsByStepId`. -/
theorem getResultsByStepId_addResult (store : MemoryStore) (sid : Nat) (t : String)
    (d : Payload) (ts : Nat) (s : Nat) :
    (store.addResult sid t d ts).getResultsByStepId s =
      if s = sid then store.getResultsByStepId s ++ [⟨sid, t, d, ts⟩]
      else store.getResultsByStepId s := by
  rw [MemoryStore.addResult, MemoryStore.getResultsByStepId, MemoryStore.getResultsByStepId]
  by_cases h : s = sid
  · subst h
    simp [mapGet_mapSet_self]
  · simp [mapGet_mapSet_ne _ _ _ _ h, h]

/-- Effect of `clearStepData` on `getResultsByStepId`. -/
theorem getResultsByStepId_clearStepData (store : MemoryStore) (sid s : Nat) :
    (store.clearStepData sid).getResultsByStepId s =
      if s = sid then [] else store.getResultsByStepId s := by
  rw [MemoryStore.clearStepData, MemoryStore.getResultsByStepId, MemoryStore.getResultsByStepId]
  simp only [mapGet_mapDelete]
  by_cases h : s = sid <;> simp [h]

/-- The step index after any usage sequence, relative to a start state. -/
theorem getResultsByStepId_applyOps (s : Nat) :
    ∀ (ops : List MemOp) (store : MemoryStore),
      (applyOps store ops).getResultsByStepId s =
        specEntriesForStep s ops (store.getResultsByStepId s) := by
  intro ops
  induction ops with
  | nil => intro store; rfl
  | cons op ops ih =>
    intro store
    cases op with
    | add sid t d ts =>
      rw [applyOps, applyOp, ih, specEntriesForStep, getResultsByStepId_addResult]
      by_cases h : sid = s
      · subst h; simp
      · simp [h, Ne.symm h]
    | clear sid =>
      rw [applyOps, applyOp, ih, specEntriesForStep, getResultsByStepId_clearStepData]
      by_cases h : sid = s
      · subst h; simp
      · simp [h, Ne.symm h]

/-- C4: for every sequence of memory-store operations and every `stepId`
`s`, `getResultsByStepId(s)` returns exactly the `DataEntry`s added with
`stepId` `s` and not since removed by `clearStepData`, in insertion
order, and the empty sequence when no such entries exist. -/
theorem memory_results_by_step_exact (ops : List MemOp) (s : Nat) :
    (applyOps emptyStore ops).getResultsByStepId s = specEntriesForStep s ops [] := by
  have h := getResultsByStepId_applyOps s ops emptyStore
  simpa [MemoryStore.getResultsByStepId, emptyStore, mapGet] using h

/-- A key absent from the key list reads as `none`. -/
theorem mapGet_none_of_not_mem {α β : Type} [DecidableEq α] (m : List (α × β)) (k : α)
    (h : k ∉ mapKeys m) : mapGet m k = none := by
  induction m with
  | nil => rfl
  | cons p m ih =>
    simp only [mapKeys, List.map_cons, List.mem_cons] at h
    push_neg at h
    simp only [mapGet]
    rw [if_neg (Ne.symm h.1)]
    exact ih (by simpa [mapKeys] using h.2)

/-- `mapContains` is membership in the key list. -/
theorem mapContains_eq_false_iff {α β : Type} [DecidableEq α] (m : List (α × β)) (k : α) :
    mapContains m k = false ↔ k ∉ mapKeys m := by
  induction m with
  | nil => simp [mapContains, mapKeys]
  | cons p m ih =>
    rw [show mapKeys (p :: m) = p.1 :: mapKeys m from rfl, List.mem_cons, mapContains]
    by_cases hp : p.1 = k
    · rw [if_pos hp]
      simp [hp]
    · rw [if_neg hp, ih]
      have hkp : ¬(k = p.1) := fun hh => hp hh.symm
      simp [hkp]

/-- Keys after `mapSet`. -/
theorem mapKeys_mapSet {α β : Type} [DecidableEq α] (m : List (α × β)) (k : α) (v : β) :
    mapKeys (mapSet m k v) =
      if mapContains m k then mapKeys m else mapKeys m ++ [k] := by
  rw [mapSet]
  by_cases hc : mapContains m k
  · simp only [hc, if_true, mapKeys, List.map_map]
    apply List.map_congr_left
    intro p _
    by_cases hp : p.1 = k <;> simp [hp]
  · simp [hc, mapKeys]

/-- `mapSet` preserves key uniqueness. -/
theorem nodup_mapKeys_mapSet {α β : Type} [DecidableEq α] (m : List (α × β)) (k : α) (v : β)
    (h : (mapKeys m).Nodup) : (mapKeys (mapSet m k v)).Nodup := by
  rw [mapKeys_mapSet]
  by_cases hc : mapContains m k
  · simpa [hc] using h
  · have hk : k ∉ mapKeys m := (mapContains_eq_false_iff m k).1 (by simpa using hc)
    simp [hc, List.nodup_append, h, hk]

/-- Keys survive a bucket-rewriting map. -/
theorem mapKeys_map_bucket {α β γ : Type} (m : List (α × β)) (f : α × β → γ) :
    mapKeys (m.map (fun p => (p.1, f p))) = mapKeys m := by
  simp [mapKeys, List.map_map, Function.comp]

/-- Keys of the bucket-filtering transform used by `clearStepData` are a
subset of the original keys. -/
theorem mem_keys_bucket_transform {α β γ : Type} (m : List (α × β)) (f : α × β → γ)
    (g : α × γ → Bool) (x : α)
    (h : x ∈ mapKeys ((m.map (fun p => (p.1, f p))).filter g)) : x ∈ mapKeys m := by
  have hsub : ((m.map (fun p => (p.1, f p))).filter g).Sublist (m.map (fun p => (p.1, f p))) :=
    List.filter_sublist _
  have := (hsub.map Prod.fst).subset
  rw [← mapKeys_map_bucket m f]
  exact this h

/-- `clearStepData`-style bucket transforms preserve key uniqueness. -/
theorem nodup_mapKeys_bucket_transform {α β γ : Type} (m : List (α × β)) (f : α × β → γ)
    (g : α × γ → Bool) (h : (mapKeys m).Nodup) :
    (mapKeys ((m.map (fun p => (p.1, f p))).filter g)).Nodup := by
  have hsub : ((m.map (fun p => (p.1, f p))).filter g).Sublist (m.map (fun p => (p.1, f p))) :=
    List.filter_sublist _
  have h2 : (mapKeys (m.map (fun p => (p.1, f p)))).Nodup := by
    rwa [mapKeys_map_bucket]
  exact (hsub.map Prod.fst).nodup h2

/-- Reading a bucket after the `clearStepData` transform: the bucket is
filtered (and entirely removed exactly when the filter empties it). -/
theorem bucket_filter_get {β : Type} [DecidableEq β] (m : List (String × List β))
    (q : β → Bool) (t : String)
    (hnd : (mapKeys m).Nodup) :
    (mapGet ((m.map (fun p => (p.1, p.2.filter q))).filter
        (fun p => decide (p.2 ≠ []))) t).getD []
      = ((mapGet m t).getD []).filter q := by
  induction m with
  | nil => simp [mapGet]
  | cons p m ih =>
    have hnd2 : (mapKeys m).Nodup ∧ p.1 ∉ mapKeys m := by
      constructor
      · exact ((List.nodup_cons.1 (by simpa [mapKeys] using hnd)).2)
      · exact ((List.nodup_cons.1 (by simpa [mapKeys] using hnd)).1)
    simp only [List.map_cons, List.filter_cons]
    by_cases hq : p.2.filter q = []
    · rw [show (decide ((p.1, p.2.filter q).2 ≠ [])) = false by simp [hq]]
      simp only [Bool.false_eq_true, if_false]
      by_cases hp : p.1 = t
      · have hnone :
            mapGet ((m.map (fun p => (p.1, p.2.filter q))).filter
              (fun p => decide (p.2 ≠ []))) t = none := by
          apply mapGet_none_of_not_mem
          intro hmem
          exact hnd2.2 (hp ▸ mem_keys_bucket_transform m _ _ t hmem)
        rw [hnone]
        simp [mapGet, hp, hq]
      · rw [ih hnd2.1]
        simp [mapGet, hp]
    · rw [show (decide ((p.1, p.2.filter q).2 ≠ [])) = true by simp [hq]]
      simp only [if_true]
      by_cases hp : p.1 = t
      · simp [mapGet, hp]
      · simp only [mapGet, hp, if_false]
        exact ih hnd2.1

/-- Effect of `addResult` on `getResultsByType`. -/
theorem getResultsByType_addResult (store : MemoryStore) (sid : Nat) (t : String)
    (d : Payload) (ts : Nat) (ty : String) :
    (store.addResult sid t d ts).getResultsByType ty =
      if ty = t then store.getResultsByType ty ++ [⟨sid, t, d, ts⟩]
      else store.getResultsByType ty := by
  rw [MemoryStore.addResult, MemoryStore.getResultsByType, MemoryStore.getResultsByType]
  by_cases h : ty = t
  · subst h
    simp [mapGet_mapSet_self]
  · simp [mapGet_mapSet_ne _ _ _ _ h, h]

/-- The indices stay filters of the chronological log along any usage
sequence, and the type index keeps unique keys. -/
theorem applyOps_indices_filter (ops : List MemOp) :
    ∀ store : MemoryStore,
      (mapKeys store.dataByType).Nodup →
      (∀ t, store.getResultsByType t =
        store.allData.filter (fun e => decide (e.type = t))) →
      (∀ s, store.getResultsByStepId s =
        store.allData.filter (fun e => decide (e.stepId = s))) →
      (mapKeys (applyOps store ops).dataByType).Nodup ∧
      (∀ t, (applyOps store ops).getResultsByType t =
        (applyOps store ops).allData.filter (fun e => decide (e.type = t))) ∧
      (∀ s, (applyOps store ops).getResultsByStepId s =
        (applyOps store ops).allData.filter (fun e => decide (e.stepId = s))) := by
  induction ops with
  | nil => intro store hnd ht hs; exact ⟨hnd, ht, hs⟩
  | cons op ops ih =>
    intro store hnd ht hs
    rw [applyOps]
    cases op with
    | add sid ty d ts =>
      apply ih
      · exact nodup_mapKeys_mapSet _ _ _ hnd
      · intro t
        rw [applyOp, getResultsByType_addResult, ht t]
        show _ = List.filter _ (store.allData ++ [⟨sid, ty, d, ts⟩])
        rw [List.filter_append]
        by_cases h : t = ty
        · subst h; simp
        · simp [h, Ne.symm h]
      · intro s
        rw [applyOp, getResultsByStepId_addResult, hs s]
        show _ = List.filter _ (store.allData ++ [⟨sid, ty, d, ts⟩])
        rw [List.filter_append]
        by_cases h : s = sid
        · subst h; simp
        · simp [h, Ne.symm h]
    | clear sid =>
      apply ih
      · exact nodup_mapKeys_bucket_transform _ _ _ hnd
      · intro t
        have hb := bucket_filter_get store.dataByType
          (fun e => decide (e.stepId ≠ sid)) t hnd
        rw [applyOp]
        show (mapGet _ t).getD [] = _
        rw [MemoryStore.clearStepData]
        rw [hb]
        show (store.getResultsByType t).filter _ = _
        rw [ht t, List.filter_filter, List.filter_filter]
        apply List.filter_congr
        intro e _
        by_cases h1 : e.type = t <;> by_cases h2 : e.stepId = sid <;> simp [h1, h2]
      · intro s
        rw [applyOp, getResultsByStepId_clearStepData, hs s]
        show _ = List.filter _ (store.allData.filter (fun e => decide (e.stepId ≠ sid)))
        rw [List.filter_filter]
        by_cases h : s = sid
        · subst h
          rw [if_pos rfl]
          symm
          apply List.eq_nil_iff_forall_not_mem.2
          intro e hmem
          rw [List.mem_filter] at hmem
          have h2 := hmem.2
          simp only [Bool.and_eq_true, decide_eq_true_eq] at h2
          exact h2.2 h2.1
        · rw [if_neg h]
          apply List.filter_congr
          intro e _
          by_cases h1 : e.stepId = s <;> simp [h1, h]

/-- C5: after every sequence of `addResult` and `clearStepData`
operations, the type index and the step index are consistent subsets of
the chronological log: every entry in either index is in the log and in
the other index (at its own type and step id), and every log entry is in
both indices. -/
theorem memory_indices_consistent (ops : List MemOp) :
    (∀ t, ∀ e ∈ (applyOps emptyStore ops).getResultsByType t,
        e ∈ (applyOps emptyStore ops).allData ∧
        e ∈ (applyOps emptyStore ops).getResultsByStepId e.stepId) ∧
    (∀ s, ∀ e ∈ (applyOps emptyStore ops).getResultsByStepId s,
        e ∈ (applyOps emptyStore ops).allData ∧
        e ∈ (applyOps emptyStore ops).getResultsByType e.type) ∧
    (∀ e ∈ (applyOps emptyStore ops).allData,
        e ∈ (applyOps emptyStore ops).getResultsByType e.type ∧
        e ∈ (applyOps emptyStore ops).getResultsByStepId e.stepId) := by
  obtain ⟨-, ht, hs⟩ := applyOps_indices_filter ops emptyStore
    (by simp [emptyStore, mapKeys]) (by intro t; rfl) (by intro s; rfl)
  refine ⟨?_, ?_, ?_⟩
  · intro t e he
    rw [ht t, List.mem_filter] at he
    exact ⟨he.1, by rw [hs e.stepId, List.mem_filter]; exact ⟨he.1, by simp⟩⟩
  · intro s e he
    rw [hs s, List.mem_filter] at he
    exact ⟨he.1, by rw [ht e.type, List.mem_filter]; exact ⟨he.1, by simp⟩⟩
  · intro e he
    constructor
    · rw [ht e.type, List.mem_filter]; exact ⟨he, by simp⟩
    · rw [hs e.stepId, List.mem_filter]; exact ⟨he, by simp⟩

/-- C6 counterexample: a store holding one entry whose payload has a
circular reference makes `getFormattedContext` propagate the
`JSON.stringify` error rather than rendering with a fallback, so the
claim that `getFormattedContext` never throws is false on this store. -/
theorem formatted_context_circular_cex :
    (MemoryStore.addResult emptyStore 1 "search" Payload.circular 0).getFormattedContext
      = .error "Converting circular structure to JSON" := rfl

/-- `renderEntries` succeeds when every payload serializes. -/
theorem renderEntries_ok (l : List DataEntry)
    (h : ∀ e ∈ l, ∃ s, jsonStringify e.data = .ok s) :
    ∃ r, renderEntries l = .ok r := by
  induction l with
  | nil => exact ⟨"", rfl⟩
  | cons e rest ih =>
    obtain ⟨s, hs⟩ := h e (List.mem_cons_self e rest)
    obtain ⟨r, hr⟩ := ih (fun x hx => h x (List.mem_cons_of_mem e hx))
    refine ⟨"Step " ++ toString e.stepId ++ ": " ++ e.type ++ " operation\n"
      ++ "Results:\n" ++ s ++ "\n\n" ++ r, ?_⟩
    rw [renderEntries, hs, hr]

/-- C6 amended: `getFormattedContext` does not throw as long as every
stored payload is serializable; a non-serializable payload makes the
serialization error propagate (there is no fallback in the memory
store). -/
theorem formatted_context_ok_of_serializable (store : MemoryStore)
    (h : ∀ e ∈ store.allData, ∃ s, jsonStringify e.data = .ok s) :
    ∃ r, store.getFormattedContext = .ok r := by
  rw [MemoryStore.getFormattedContext]
  by_cases he : store.allData = []
  · rw [if_pos he]
    exact ⟨_, rfl⟩
  · rw [if_neg he]
    obtain ⟨r, hr⟩ := renderEntries_ok store.allData h
    rw [hr]
    exact ⟨_, rfl⟩

/-- Witness for the amended C6 at a concrete serializable store. -/
theorem formatted_context_ok_witness :
    ∃ r, (MemoryStore.addResult emptyStore 1 "search" (Payload.str "hit") 0).getFormattedContext
      = .ok r :=
  formatted_context_ok_of_serializable _
    (by
      intro e he
      simp only [MemoryStore.addResult, emptyStore, List.nil_append,
        List.mem_singleton] at he
      exact ⟨"hit", by rw [he]; rfl⟩)

/-- C9: whenever the planner response reports the task incomplete, the
step handed back by `determineNextStep` has a non-empty description, and
when the response omits the description (absent step object or empty
string) the error-marker description is substituted. -/
theorem determineNextStep_description (c : Nat) (resp : PlannerResponse)
    (h : resp.isComplete = false) :
    (determineNextStep c resp).step.description =
      match resp.step with
      | none => "Error: No step description provided"
      | some s =>
        if s.description = "" then "Error: No step description provided"
        else s.description := by
  rw [determineNextStep, h]
  simp

theorem planner_description_nonempty (c : Nat) (resp : PlannerResponse)
    (h : resp.isComplete = false) :
    (determineNextStep c resp).step.description ≠ "" ∧
    ((resp.step = none ∨ ∃ s, resp.step = some s ∧ s.description = "") →
      (determineNextStep c resp).step.description = "Error: No step description provided") := by
  have hdesc := determineNextStep_description c resp h
  constructor
  · rw [hdesc]
    cases hstep : resp.step with
    | none => decide
    | some s =>
      show (if s.description = "" then "Error: No step description provided"
        else s.description) ≠ ""
      by_cases hd : s.description = ""
      · rw [if_pos hd]; decide
      · rw [if_neg hd]; exact hd
  · intro habs
    rw [hdesc]
    rcases habs with habs | ⟨s2, hs2, hs2d⟩
    · rw [habs]
    · rw [hs2]
      show (if s2.description = "" then "Error: No step description provided"
        else s2.description) = "Error: No step description provided"
      rw [if_pos hs2d]

/-- The planner decision reports completion exactly as the oracle
response does. -/
theorem determineNextStep_isComplete (c : Nat) (resp : PlannerResponse) :
    (determineNextStep c resp).isComplete = resp.isComplete := by
  rw [determineNextStep]
  by_cases h : resp.isComplete <;> simp [h]

/-- Along any all-successful, never-complete run segment, the loop ends
in the budget break after exactly one planning call and one dispatch per
remaining fuel unit, and the guard-top values stay bounded. -/
theorem runAux_budget (oracle : Nat → Except String PlannerResponse)
    (dispatch : Nat → Except String (List (ToolName × String)))
    (hor : ∀ k, ∃ resp, oracle k = .ok resp ∧ resp.isComplete = false)
    (hd : ∀ k, ∃ out, dispatch k = .ok out) :
    ∀ (fuel : Nat) (st : AgentSt),
      (runAux oracle dispatch fuel st).2 = .budgetExhausted ∧
      (runAux oracle dispatch fuel st).1.dispatchCount = st.dispatchCount + fuel ∧
      (runAux oracle dispatch fuel st).1.planCalls = st.planCalls + fuel ∧
      (runAux oracle dispatch fuel st).1.currentStep = st.currentStep + fuel ∧
      ∀ c ∈ (runAux oracle dispatch fuel st).1.tops,
        c ∈ st.tops ∨ c ≤ st.currentStep + fuel := by
  intro fuel
  induction fuel with
  | zero =>
    intro st
    rw [runAux]
    refine ⟨rfl, rfl, rfl, rfl, ?_⟩
    intro c hc
    simp only [List.mem_append, List.mem_singleton] at hc
    rcases hc with hc | hc
    · exact Or.inl hc
    · exact Or.inr (by omega)
  | succ fuel ih =>
    intro st
    obtain ⟨resp, hresp, hic⟩ := hor st.planCalls
    obtain ⟨out, hout⟩ := hd st.dispatchCount
    have hcomp : (determineNextStep (st.currentStep + 1) resp).isComplete = false := by
      rw [determineNextStep_isComplete]; exact hic
    rw [runAux]
    simp only [hresp, hcomp, Bool.false_eq_true, if_false, executeStep, hout]
    refine ⟨(ih _).1, ?_, ?_, ?_, ?_⟩
    · rw [(ih _).2.1]; simp; omega
    · rw [(ih _).2.2.1]; simp; omega
    · rw [(ih _).2.2.2.1]; simp; omega
    · intro c hc
      rcases (ih _).2.2.2.2 c hc with h | h
      · simp only [List.mem_append, List.mem_singleton] at h
        rcases h with h | h
        · exact Or.inl h
        · exact Or.inr (by omega)
      · refine Or.inr ?_
        simp only [] at h
        omega

/-- C1: with budget `maxSteps = N`, an oracle that never reports
completion (and never throws) and dispatches that never throw, the outer
loop performs exactly `N` dispatches (and `N` planning calls), the value
of `currentStep` at the top of every loop-guard evaluation is at most
`maxSteps`, and the run terminates by the budget-exhaustion exit. -/
theorem agent_budget_enforcement (maxSteps : Nat)
    (oracle : Nat → Except String PlannerResponse)
    (dispatch : Nat → Except String (List (ToolName × String)))
    (hor : ∀ k, ∃ resp, oracle k = .ok resp ∧ resp.isComplete = false)
    (hd : ∀ k, ∃ out, dispatch k = .ok out) :
    (Agent.run maxSteps oracle dispatch).2 = .budgetExhausted ∧
    (Agent.run maxSteps oracle dispatch).1.dispatchCount = maxSteps ∧
    (Agent.run maxSteps oracle dispatch).1.planCalls = maxSteps ∧
    ∀ c ∈ (Agent.run maxSteps oracle dispatch).1.tops, c ≤ maxSteps := by
  obtain ⟨h1, h2, h3, h4, h5⟩ := runAux_budget oracle dispatch hor hd maxSteps initialAgentSt
  rw [Agent.run]
  refine ⟨h1, by simpa [initialAgentSt] using h2, by simpa [initialAgentSt] using h3, ?_⟩
  intro c hc
  rcases h5 c hc with h | h
  · simp [initialAgentSt] at h
  · simpa [initialAgentSt] using h

/-- Witness for C1 at budget 3 with concrete scripted oracle and
dispatcher. -/
theorem agent_budget_enforcement_witness :
    (Agent.run 3 (fun _ => .ok ⟨false, none, some ⟨7, "next", []⟩⟩)
        (fun _ => .ok [(.search, "data")])).2 = .budgetExhausted ∧
    (Agent.run 3 (fun _ => .ok ⟨false, none, some ⟨7, "next", []⟩⟩)
        (fun _ => .ok [(.search, "data")])).1.dispatchCount = 3 ∧
    (Agent.run 3 (fun _ => .ok ⟨false, none, some ⟨7, "next", []⟩⟩)
        (fun _ => .ok [(.search, "data")])).1.planCalls = 3 ∧
    ∀ c ∈ (Agent.run 3 (fun _ => .ok ⟨false, none, some ⟨7, "next", []⟩⟩)
        (fun _ => .ok [(.search, "data")])).1.tops, c ≤ 3 :=
  agent_budget_enforcement 3 _ _ (fun _ => ⟨_, rfl, rfl⟩) (fun _ => ⟨_, rfl⟩)

/-- C3: when the first dispatch throws, the run terminates right after
that single dispatch through the handler-error exit, the failing step is
logged as `failed` with the captured error, and no further planning call
happens (exactly one planning call in total). -/
theorem agent_handler_fail_fast (maxSteps : Nat)
    (oracle : Nat → Except String PlannerResponse)
    (dispatch : Nat → Except String (List (ToolName × String)))
    (resp : PlannerResponse) (e : String)
    (hN : 1 ≤ maxSteps)
    (hor : oracle 0 = .ok resp) (hic : resp.isComplete = false)
    (hd : dispatch 0 = .error e) :
    (Agent.run maxSteps oracle dispatch).2 = .handlerError e ∧
    (Agent.run maxSteps oracle dispatch).1.dispatchCount = 1 ∧
    (Agent.run maxSteps oracle dispatch).1.planCalls = 1 ∧
    (Agent.run maxSteps oracle dispatch).1.stepsLog =
      [{ (determineNextStep 1 resp).step with status := .failed, error := some e }] := by
  obtain ⟨f, rfl⟩ : ∃ f, maxSteps = f + 1 := ⟨maxSteps - 1, by omega⟩
  have hcomp : (determineNextStep 1 resp).isComplete = false := by
    rw [determineNextStep_isComplete]; exact hic
  rw [Agent.run, runAux]
  simp only [initialAgentSt, hor, hcomp, Bool.false_eq_true, if_false, executeStep, hd]
  exact ⟨trivial, trivial, trivial, rfl⟩

/-- Witness for C3 at budget 5 with a concrete dispatcher that throws on
its first call. -/
theorem agent_handler_fail_fast_witness :
    (Agent.run 5 (fun _ => .ok ⟨false, none, some ⟨1, "work", []⟩⟩)
        (fun _ => .error "boom")).2 = .handlerError "boom" ∧
    (Agent.run 5 (fun _ => .ok ⟨false, none, some ⟨1, "work", []⟩⟩)
        (fun _ => .error "boom")).1.dispatchCount = 1 ∧
    (Agent.run 5 (fun _ => .ok ⟨false, none, some ⟨1, "work", []⟩⟩)
        (fun _ => .error "boom")).1.planCalls = 1 ∧
    (Agent.run 5 (fun _ => .ok ⟨false, none, some ⟨1, "work", []⟩⟩)
        (fun _ => .error "boom")).1.stepsLog =
      [{ (determineNextStep 1 ⟨false, none, some ⟨1, "work", []⟩⟩).step with
          status := .failed, error := some "boom" }] :=
  agent_handler_fail_fast 5 _ _ ⟨false, none, some ⟨1, "work", []⟩⟩ "boom"
    (by omega) rfl rfl rfl

/-- Witness for C9 at a concrete incomplete response with a missing step
object. -/
theorem planner_description_nonempty_witness :
    (determineNextStep 1 ⟨false, none, none⟩).step.description ≠ "" ∧
    (((⟨false, none, none⟩ : PlannerResponse).step = none ∨
        ∃ s, (⟨false, none, none⟩ : PlannerResponse).step = some s ∧ s.description = "") →
      (determineNextStep 1 ⟨false, none, none⟩).step.description =
        "Error: No step description provided") :=
  planner_description_nonempty 1 ⟨false, none, none⟩ rfl

/-- Combined exit invariants of the inner loop: a budget break sets
`stepCount` to the entry count plus fuel plus one and keeps the repeat
counter below threshold, and a loop-detection break fires exactly at the
threshold. -/
theorem innerLoopAux_exit (oracle : Nat → BStep)
    (exec : AtomicMethod → String → Except String String) :
    ∀ (fuel : Nat) (st st' : LoopSt) (ek : InnerExit),
      innerLoopAux oracle exec fuel st = .ok (ek, st') →
      (ek = .budget →
        st'.stepCount = st.stepCount + fuel + 1 ∧
        (st.similarStepsCount < MAX_SIMILAR_STEPS →
          st'.similarStepsCount < MAX_SIMILAR_STEPS)) ∧
      (ek = .loopDetected → st.similarStepsCount < MAX_SIMILAR_STEPS →
        st'.similarStepsCount = MAX_SIMILAR_STEPS) := by
  intro fuel
  induction fuel with
  | zero =>
    intro st st' ek h
    rw [innerLoopAux] at h
    simp only [Except.ok.injEq, Prod.mk.injEq] at h
    obtain ⟨hek, hst⟩ := h
    subst hek
    subst hst
    refine ⟨fun _ => ⟨rfl, fun hh => hh⟩, fun hcontra => ?_⟩
    cases hcontra
  | succ fuel ih =>
    intro st st' ek h
    rw [innerLoopAux] at h
    cases hsc : exec .SCREENSHOT "" with
    | error e =>
      rw [hsc] at h
      simp at h
    | ok scr =>
      rw [hsc] at h
      simp only [MAX_SIMILAR_STEPS] at h ⊢
      by_cases hid : methodName (oracle st.planCalls).tool ++ ":" ++
          (oracle st.planCalls).instruction = st.lastAction
      · simp only [hid, eq_self_iff_true, if_true] at h
        by_cases hth : 3 ≤ st.similarStepsCount + 1
        · rw [if_pos hth] at h
          simp only [Except.ok.injEq, Prod.mk.injEq] at h
          obtain ⟨hek, hst⟩ := h
          subst hek
          subst hst
          refine ⟨fun hcontra => ?_, fun _ hlt => ?_⟩
          · cases hcontra
          · simp only []
            omega
        · rw [if_neg hth] at h
          cases hex2 : exec (oracle st.planCalls).tool (oracle st.planCalls).instruction with
          | error e2 =>
            simp only [hex2] at h
            exact Except.noConfusion h
          | ok v =>
            simp only [hex2] at h
            by_cases hcl : (oracle st.planCalls).tool = .CLOSE
            · rw [if_pos hcl] at h
              simp only [Except.ok.injEq, Prod.mk.injEq] at h
              obtain ⟨hek, hst⟩ := h
              subst hek
              refine ⟨fun hcontra => ?_, fun hcontra => ?_⟩ <;> cases hcontra
            · rw [if_neg hcl] at h
              have hrec := ih _ st' ek h
              refine ⟨fun hbud => ?_, fun hloop hlt => ?_⟩
              · obtain ⟨hsc', hsim⟩ := (hrec.1 hbud)
                constructor
                · rw [hsc']
                  simp only []
                  omega
                · intro _
                  apply hsim
                  simp only [MAX_SIMILAR_STEPS]
                  omega
              · apply hrec.2 hloop
                simp only [MAX_SIMILAR_STEPS]
                omega
      · simp only [hid, if_false] at h
        rw [if_neg (by omega : ¬(3 ≤ 0))] at h
        cases hex2 : exec (oracle st.planCalls).tool (oracle st.planCalls).instruction with
        | error e2 =>
          simp only [hex2] at h
          exact Except.noConfusion h
        | ok v =>
          simp only [hex2] at h
          by_cases hcl : (oracle st.planCalls).tool = .CLOSE
          · rw [if_pos hcl] at h
            simp only [Except.ok.injEq, Prod.mk.injEq] at h
            obtain ⟨hek, hst⟩ := h
            subst hek
            refine ⟨fun hcontra => ?_, fun hcontra => ?_⟩ <;> cases hcontra
          · rw [if_neg hcl] at h
            have hrec := ih _ st' ek h
            refine ⟨fun hbud => ?_, fun hloop hlt => ?_⟩
            · obtain ⟨hsc', hsim⟩ := (hrec.1 hbud)
              constructor
              · rw [hsc']
                simp only []
                omega
              · intro _
                apply hsim
                simp only [MAX_SIMILAR_STEPS]
                omega
            · apply hrec.2 hloop
              simp only [MAX_SIMILAR_STEPS]
              omega

/-- Taking from the reversed concatenation sees only the suffix. -/
theorem take_reverse_append (p s : List Char) (h : 3 ≤ s.length) :
    ((p ++ s).reverse.take 3) = s.reverse.take 3 := by
  rw [List.reverse_append]
  exact List.take_append_of_le_length (by simpa using h)

/-- The two incomplete-termination message forms are never equal: they
end in different parenthesized reasons. -/
theorem budgetMessage_ne_loopMessage (a b : Nat) : budgetMessage a ≠ loopMessage b := by
  intro heq
  have hd : (budgetMessage a).data = (loopMessage b).data := by rw [heq]
  rw [budgetMessage, loopMessage] at hd
  simp only [String.data_append] at hd
  have h1 := congrArg (fun l => (List.reverse l).take 3) hd
  simp only [] at h1
  rw [show ("Task terminated after ".data ++ (toString a).data ++ " steps".data ++
        " (reached maximum steps)".data) =
      (("Task terminated after ".data ++ (toString a).data ++ " steps".data) ++
        " (reached maximum steps)".data) from by simp,
    show ("Task terminated after ".data ++ (toString b).data ++ " steps".data ++
        " (detected repetitive actions)".data) =
      (("Task terminated after ".data ++ (toString b).data ++ " steps".data) ++
        " (detected repetitive actions)".data) from by simp] at h1
  rw [take_reverse_append _ _ (by decide), take_reverse_append _ _ (by decide)] at h1
  have e1 : (" (reached maximum steps)".data.reverse.take 3) = [')', 's', 'p'] := by decide
  have e2 : (" (detected repetitive actions)".data.reverse.take 3) = [')', 's', 'n'] := by
    decide
  rw [e1, e2] at h1
  exact absurd h1 (by decide)

/-- A successful `executeGoalSt` decomposes into a successful initial
`GOTO` followed by the loop. -/
theorem executeGoalSt_ok_inner (maxSteps : Nat) (oracle : Nat → BStep)
    (exec : AtomicMethod → String → Except String String) (url : String)
    (ek : InnerExit) (st' : LoopSt)
    (h : executeGoalSt maxSteps oracle exec url = .ok (ek, st')) :
    innerLoopAux oracle exec (maxSteps - 1) (initialLoopSt url) = .ok (ek, st') := by
  rw [executeGoalSt] at h
  cases hg : exec .GOTO url with
  | error e =>
    simp only [hg] at h
    exact Except.noConfusion h
  | ok g =>
    simp only [hg] at h
    exact h

/-- C10: a browser dispatch that exhausts the inner step budget reports
`totalSteps = MAX_STEPS + 1`: the counter is incremented before the
budget guard fires, so the reported count strictly exceeds the
configured budget. -/
theorem browser_budget_totalSteps (maxSteps : Nat) (oracle : Nat → BStep)
    (exec : AtomicMethod → String → Except String String) (url : String) (st' : LoopSt)
    (h1 : 1 ≤ maxSteps)
    (hb : executeGoalSt maxSteps oracle exec url = .ok (.budget, st')) :
    BrowserTool.executeGoal maxSteps oracle exec url =
      .ok (mkBrowserResult maxSteps .budget st') ∧
    (mkBrowserResult maxSteps .budget st').totalSteps = maxSteps + 1 ∧
    maxSteps < (mkBrowserResult maxSteps .budget st').totalSteps := by
  have hloop := executeGoalSt_ok_inner maxSteps oracle exec url .budget st' hb
  have hcount :=
    ((innerLoopAux_exit oracle exec (maxSteps - 1) (initialLoopSt url) st' .budget hloop).1
      rfl).1
  refine ⟨?_, ?_, ?_⟩
  · rw [BrowserTool.executeGoal, hb]
  · show st'.stepCount = maxSteps + 1
    rw [hcount]
    simp only [initialLoopSt]
    omega
  · show maxSteps < st'.stepCount
    rw [hcount]
    simp only [initialLoopSt]
    omega

/-- Witness for C10 at budget 2 with an oracle that constantly answers
`ACT`. -/
theorem browser_budget_totalSteps_witness :
    BrowserTool.executeGoal 2 (fun _ => actStep) okExec "u" =
      .ok (mkBrowserResult 2 .budget c10State) ∧
    (mkBrowserResult 2 .budget c10State).totalSteps = 2 + 1 ∧
    2 < (mkBrowserResult 2 .budget c10State).totalSteps :=
  browser_budget_totalSteps 2 (fun _ => actStep) okExec "u" c10State (by omega) rfl

/-- C8: a browser dispatch that ends through the inner budget guard or
through loop detection returns a `BrowserResult` normally (no throw),
and its message takes the reached-maximum-steps form in the first case
and the repetitive-actions form in the second; the two forms are never
equal, so the message distinguishes which termination occurred. -/
theorem browser_expected_termination (maxSteps : Nat) (oracle : Nat → BStep)
    (exec : AtomicMethod → String → Except String String) (url : String)
    (ek : InnerExit) (st' : LoopSt)
    (h : executeGoalSt maxSteps oracle exec url = .ok (ek, st'))
    (hek : ek = .budget ∨ ek = .loopDetected) :
    BrowserTool.executeGoal maxSteps oracle exec url =
      .ok (mkBrowserResult maxSteps ek st') ∧
    (ek = .budget →
      (mkBrowserResult maxSteps ek st').message = budgetMessage st'.stepCount) ∧
    (ek = .loopDetected →
      (mkBrowserResult maxSteps ek st').message = loopMessage st'.stepCount) ∧
    (∀ a b : Nat, budgetMessage a ≠ loopMessage b) := by
  have hloop := executeGoalSt_ok_inner maxSteps oracle exec url ek st' h
  have hexit := innerLoopAux_exit oracle exec (maxSteps - 1) (initialLoopSt url) st' ek hloop
  refine ⟨?_, ?_, ?_, budgetMessage_ne_loopMessage⟩
  · rw [BrowserTool.executeGoal, h]
  · intro hbud
    subst hbud
    obtain ⟨hsc, hsim⟩ := hexit.1 rfl
    have hs3 : st'.similarStepsCount < MAX_SIMILAR_STEPS :=
      hsim (by simp [initialLoopSt, MAX_SIMILAR_STEPS])
    show browserMessage false st'.stepCount st'.similarStepsCount maxSteps = _
    rw [browserMessage]
    rw [if_neg (by simp)]
    rw [if_neg (by omega : ¬ MAX_SIMILAR_STEPS ≤ st'.similarStepsCount)]
    rw [if_pos (show maxSteps ≤ st'.stepCount by
      rw [hsc]; simp only [initialLoopSt]; omega)]
    rw [budgetMessage]
  · intro hldet
    subst hldet
    have hs3 : st'.similarStepsCount = MAX_SIMILAR_STEPS :=
      hexit.2 rfl (by simp [initialLoopSt, MAX_SIMILAR_STEPS])
    show browserMessage false st'.stepCount st'.similarStepsCount maxSteps = _
    rw [browserMessage]
    rw [if_neg (by simp)]
    rw [if_pos (by omega : MAX_SIMILAR_STEPS ≤ st'.similarStepsCount)]
    rw [loopMessage]

/-- Witness for C8 at budget 1 (immediate budget exit). -/
theorem browser_expected_termination_witness :
    BrowserTool.executeGoal 1 (fun _ => actStep) okExec "u" =
      .ok (mkBrowserResult 1 .budget c8State) ∧
    ((.budget : InnerExit) = .budget →
      (mkBrowserResult 1 .budget c8State).message = budgetMessage c8State.stepCount) :=
  ⟨(browser_expected_termination 1 (fun _ => actStep) okExec "u" .budget c8State rfl
      (Or.inl rfl)).1,
   (browser_expected_termination 1 (fun _ => actStep) okExec "u" .budget c8State rfl
      (Or.inl rfl)).2.1⟩

/-- A loop-detection action string is never the empty initial
`lastAction`. -/
theorem actionString_ne_empty (m : AtomicMethod) (i : String) :
    methodName m ++ ":" ++ i ≠ "" := by
  intro h
  have hl := congrArg String.length h
  rw [String.length_append, String.length_append] at hl
  have hm : 0 < (methodName m).length := by cases m <;> decide
  have h1 : (":" : String).length = 1 := rfl
  have h0 : ("" : String).length = 0 := rfl
  rw [h1, h0] at hl
  omega

/-- Splitting at the first colon is unambiguous when neither prefix
contains one. -/
theorem colon_append_inj (a : List Char) :
    ∀ (b x y : List Char), ':' ∉ a → ':' ∉ b →
      a ++ ':' :: x = b ++ ':' :: y → a = b ∧ x = y := by
  induction a with
  | nil =>
    intro b x y _ hb h
    cases b with
    | nil => simpa using h
    | cons c bs =>
      simp only [List.nil_append, List.cons_append, List.cons.injEq] at h
      exact absurd (List.mem_cons.2 (Or.inl h.1)) hb
  | cons c as ih =>
    intro b x y ha hb h
    cases b with
    | nil =>
      simp only [List.cons_append, List.nil_append, List.cons.injEq] at h
      exact absurd (List.mem_cons.2 (Or.inl h.1.symm)) ha
    | cons d bs =>
      simp only [List.cons_append, List.cons.injEq] at h
      have ha2 : ':' ∉ as := fun hh => ha (List.mem_cons.2 (Or.inr hh))
      have hb2 : ':' ∉ bs := fun hh => hb (List.mem_cons.2 (Or.inr hh))
      obtain ⟨hab, hxy⟩ := ih bs x y ha2 hb2 h.2
      exact ⟨by rw [h.1, hab], hxy⟩

/-- Method names are pairwise distinct. -/
theorem methodName_inj (m₁ m₂ : AtomicMethod) (h : methodName m₁ = methodName m₂) :
    m₁ = m₂ := by
  revert h
  cases m₁ <;> cases m₂ <;> decide

/-- No method name contains a colon. -/
theorem colon_not_mem_methodName (m : AtomicMethod) : ':' ∉ (methodName m).data := by
  cases m <;> decide

/-- Action strings of different methods differ, whatever the
instructions are. -/
theorem actionString_ne_of_method_ne (m₁ m₂ : AtomicMethod) (i₁ i₂ : String)
    (h : m₁ ≠ m₂) :
    methodName m₁ ++ ":" ++ i₁ ≠ methodName m₂ ++ ":" ++ i₂ := by
  intro heq
  have hd : (methodName m₁ ++ ":" ++ i₁).data = (methodName m₂ ++ ":" ++ i₂).data := by
    rw [heq]
  simp only [String.data_append] at hd
  rw [List.append_assoc, List.append_assoc, List.singleton_append,
    List.singleton_append] at hd
  have hsplit := colon_append_inj (methodName m₁).data (methodName m₂).data i₁.data i₂.data
    (colon_not_mem_methodName m₁) (colon_not_mem_methodName m₂) hd
  exact h (methodName_inj m₁ m₂ (String.ext hsplit.1))

/-- C2 counterexample: an oracle that constantly returns the same
`(method, instruction)` pair `(CLOSE, "")` terminates the engine through
goal completion after a single execution of that action — no repetitive
action is ever detected and the message is the completed one, refuting
the claim as stated for this pair. -/
theorem browser_const_close_cex :
    BrowserTool.executeGoal 20 (fun _ => closeStep) okExec "u" = .ok constCloseResult ∧
    constCloseResult.message = "Task completed successfully" ∧
    constCloseResult.completed = true ∧
    constCloseResult.totalSteps = 2 := by
  exact ⟨rfl, rfl, rfl, rfl⟩

/-- C2 amended: for a constant oracle whose repeated pair is not
`CLOSE`, with a budget of at least 5 and non-throwing executions, the
engine stops through loop detection at the fourth consecutive identical
planning decision: the repeat counter reaches exactly 3, the repeated
action is executed exactly 3 times (plus the initial `GOTO`), and the
returned result carries the repetitive-actions message. -/
theorem browser_loop_detection_amended (maxSteps : Nat) (h5 : 5 ≤ maxSteps)
    (s : BStep) (hs : s.tool ≠ .CLOSE)
    (exec : AtomicMethod → String → Except String String)
    (hex : ∀ m i, ∃ v, exec m i = .ok v) (url : String) :
    ∃ st', executeGoalSt maxSteps (fun _ => s) exec url = .ok (.loopDetected, st') ∧
      st'.similarStepsCount = MAX_SIMILAR_STEPS ∧ st'.stepCount = 5 ∧
      st'.planCalls = 4 ∧ actCount (st'.trace.drop 1) = 3 ∧
      BrowserTool.executeGoal maxSteps (fun _ => s) exec url =
        .ok (mkBrowserResult maxSteps .loopDetected st') ∧
      (mkBrowserResult maxSteps .loopDetected st').message = loopMessage 5 ∧
      (mkBrowserResult maxSteps .loopDetected st').completed = false := by
  have hrun : ∃ st',
      executeGoalSt maxSteps (fun _ => s) exec url = .ok (.loopDetected, st') ∧
      st'.similarStepsCount = MAX_SIMILAR_STEPS ∧ st'.stepCount = 5 ∧
      st'.planCalls = 4 ∧ actCount (st'.trace.drop 1) = 3 := by
    obtain ⟨k, rfl⟩ : ∃ k, maxSteps = k + 5 := ⟨maxSteps - 5, by omega⟩
    obtain ⟨g, hg⟩ := hex .GOTO url
    obtain ⟨sc, hsc⟩ := hex .SCREENSHOT ""
    obtain ⟨va, hva⟩ := hex s.tool s.instruction
    have hA := actionString_ne_empty s.tool s.instruction
    rw [executeGoalSt]
    simp only [hg]
    rw [show k + 5 - 1 = (k + 3) + 1 from rfl]
    rw [innerLoopAux]
    simp [hsc, hva, hs, initialLoopSt, MAX_SIMILAR_STEPS, hA]
    rw [show k + 3 = (k + 2) + 1 from rfl]
    rw [innerLoopAux]
    simp [hsc, hva, hs, MAX_SIMILAR_STEPS]
    rw [show k + 2 = (k + 1) + 1 from rfl]
    rw [innerLoopAux]
    simp [hsc, hva, hs, MAX_SIMILAR_STEPS]
    rw [innerLoopAux]
    simp [hsc, hva, hs, MAX_SIMILAR_STEPS, actCount]
  obtain ⟨st', hb, hsim, hstep, hplan, hact⟩ := hrun
  refine ⟨st', hb, hsim, hstep, hplan, hact, ?_, ?_, rfl⟩
  · rw [BrowserTool.executeGoal, hb]
  · show browserMessage false st'.stepCount st'.similarStepsCount maxSteps = _
    rw [browserMessage]
    rw [if_neg (by simp)]
    rw [if_pos (show MAX_SIMILAR_STEPS ≤ st'.similarStepsCount by rw [hsim])]
    rw [hstep, loopMessage]

/-- Witness for the amended C2 at budget 20 with a constant `ACT`
oracle. -/
theorem browser_loop_detection_amended_witness :
    ∃ st', executeGoalSt 20 (fun _ => actStep) okExec "u" = .ok (.loopDetected, st') ∧
      st'.similarStepsCount = MAX_SIMILAR_STEPS ∧ st'.stepCount = 5 ∧
      st'.planCalls = 4 ∧ actCount (st'.trace.drop 1) = 3 ∧
      BrowserTool.executeGoal 20 (fun _ => actStep) okExec "u" =
        .ok (mkBrowserResult 20 .loopDetected st') ∧
      (mkBrowserResult 20 .loopDetected st').message = loopMessage 5 ∧
      (mkBrowserResult 20 .loopDetected st').completed = false :=
  browser_loop_detection_amended 20 (by omega) actStep (by decide) okExec
    (fun m i => ⟨"", rfl⟩) "u"

/-- C7: with a provided start URL and an oracle scripted to answer
`EXTRACT("title")` then `CLOSE`, the engine performs the `GOTO` first
and before any planning call (the first trace event is the executed
navigation), makes exactly two planning calls, and returns a
`BrowserResult` with `totalSteps = 3` whose `results` contain exactly
one `ExtractedData` of type `extract`. -/
theorem browser_extract_close_scenario (maxSteps : Nat) (h3 : 3 ≤ maxSteps)
    (oracle : Nat → BStep) (exec : AtomicMethod → String → Except String String)
    (url : String)
    (h0t : (oracle 0).tool = .EXTRACT) (h0i : (oracle 0).instruction = "title")
    (h1t : (oracle 1).tool = .CLOSE)
    (hex : ∀ m i, ∃ v, exec m i = .ok v) :
    ∃ st', executeGoalSt maxSteps oracle exec url = .ok (.closed, st') ∧
      st'.trace.head? = some (.act .GOTO url) ∧ st'.planCalls = 2 ∧
      BrowserTool.executeGoal maxSteps oracle exec url =
        .ok (mkBrowserResult maxSteps .closed st') ∧
      (mkBrowserResult maxSteps .closed st').totalSteps = 3 ∧
      (mkBrowserResult maxSteps .closed st').completed = true ∧
      ∃ c, (mkBrowserResult maxSteps .closed st').results =
        [⟨"extract", c, "EXTRACT", "title"⟩] := by
  have hrun : ∃ st',
      executeGoalSt maxSteps oracle exec url = .ok (.closed, st') ∧
      st'.trace.head? = some (.act .GOTO url) ∧ st'.planCalls = 2 ∧
      st'.stepCount = 3 ∧
      ∃ c, st'.results = [⟨"extract", c, "EXTRACT", "title"⟩] := by
    obtain ⟨k, rfl⟩ : ∃ k, maxSteps = k + 3 := ⟨maxSteps - 3, by omega⟩
    obtain ⟨g, hg⟩ := hex .GOTO url
    obtain ⟨sc, hsc⟩ := hex .SCREENSHOT ""
    obtain ⟨v0, hv0⟩ := hex .EXTRACT "title"
    obtain ⟨v1, hv1⟩ := hex .CLOSE (oracle 1).instruction
    have hA := actionString_ne_empty .EXTRACT "title"
    have hB := actionString_ne_of_method_ne .CLOSE .EXTRACT (oracle 1).instruction "title"
      (by decide)
    rw [executeGoalSt]
    simp only [hg]
    rw [show k + 3 - 1 = (k + 1) + 1 from rfl]
    rw [innerLoopAux]
    simp [hsc, h0t, h0i, hv0, initialLoopSt, MAX_SIMILAR_STEPS, hA]
    rw [innerLoopAux]
    simp [hsc, h1t, hv1, MAX_SIMILAR_STEPS, hB]
    exact ⟨v0, rfl⟩
  obtain ⟨st', hb, hhead, hplan, hstep, hres⟩ := hrun
  exact ⟨st', hb, hhead, hplan, by rw [BrowserTool.executeGoal, hb], hstep, rfl, hres⟩

/-- Witness for C7 at budget 20 with a concrete two-step script and the
example start URL. -/
theorem browser_extract_close_scenario_witness :
    ∃ st', executeGoalSt 20
        (fun k => if k = 0 then extractTitleStep else closeStep) okExec
        "https://example.com" = .ok (.closed, st') ∧
      st'.trace.head? = some (.act .GOTO "https://example.com") ∧ st'.planCalls = 2 ∧
      BrowserTool.executeGoal 20
          (fun k => if k = 0 then extractTitleStep else closeStep) okExec
          "https://example.com" =
        .ok (mkBrowserResult 20 .closed st') ∧
      (mkBrowserResult 20 .closed st').totalSteps = 3 ∧
      (mkBrowserResult 20 .closed st').completed = true ∧
      ∃ c, (mkBrowserResult 20 .closed st').results =
        [⟨"extract", c, "EXTRACT", "title"⟩] :=
  browser_extract_close_scenario 20 (by omega)
    (fun k => if k = 0 then extractTitleStep else closeStep) okExec
    "https://example.com" rfl rfl rfl (fun m i => ⟨"", rfl⟩)

end OpenManus
